import Mathlib

/-!
Shallow embedding of the crab-router relay node (Rust sources under src/):
the relay engine and message dispatch of `src/manager.rs`, the address
store of `src/db.rs`, the address-discovery ingestion of
`src/discovery.rs`, and the streaming frame consumer and message routing
of `src/p2p/peer.rs`.

Modelling conventions:
* 32-byte keys (txids, wtxids) are `Nat`; `to_byte_array` is the identity.
* `Instant` is a `Nat` tick count; `Duration::from_secs 120` is `120`.
* Rust `HashSet` is a duplicate-free `List`; `HashMap` is an association
  list (`List (key × value)`); insertion order is kept, which is
  irrelevant to set/map semantics.
* Sends always succeed (the stale-peer path of `try_send` is a runtime
  queue condition outside this model); the outputs of a dispatch are the
  list of `(destination address, message)` pairs actually sent.
-/

/-- The five peer classifications of `NodeType` in `src/db.rs`. -/
inductive NodeType where
  | Unknown
  | Knots
  | Core
  | LibreRelay
  | Other
deriving DecidableEq, Repr

/-- IP address model: full IPv4 octets, IPv6 as its eight 16-bit segments. -/
inductive IpA where
  | V4 (a b c d : Nat)
  | V6 (segs : List Nat)
deriving DecidableEq, Repr

/-- Socket address: IP plus port. -/
structure SockAddr where
  ip : IpA
  port : Nat
deriving DecidableEq, Repr

/-- Transactions are abstracted to their two identifiers; `compute_txid`
and `compute_wtxid` are the projections. -/
structure Transaction where
  txid : Nat
  wtxid : Nat
deriving DecidableEq, Repr

/-- Inventory entries from `bitcoin::p2p::message_blockdata::Inventory`,
restricted to the variants the manager inspects; `Block`/`WitnessBlock`
stand for all keyless (block) variants. -/
inductive Inventory where
  | Transaction (txid : Nat)
  | WTx (wtxid : Nat)
  | WitnessTransaction (txid : Nat)
  | Block (hash : Nat)
  | WitnessBlock (hash : Nat)
deriving DecidableEq, Repr

/-- Gossiped address entry (`AddressEntry` in `src/p2p/message.rs`). -/
structure AddressEntry where
  services : Nat
  addr : SockAddr
  timestamp : Nat
deriving DecidableEq, Repr

/-- The typed message enum of `src/p2p/message.rs`; payloads that no
modelled code path inspects are elided. -/
inductive Message where
  | Version
  | Verack
  | SendAddrV2
  | WtxidRelay
  | Ping (nonce : Nat)
  | Pong (nonce : Nat)
  | FeeFilter (feerate : Int)
  | Inv (l : List Inventory)
  | GetData (l : List Inventory)
  | Tx (tx : Transaction)
  | GetAddr
  | Addr (l : List AddressEntry)
  | AddrV2 (l : List AddressEntry)
  | Unknown
deriving DecidableEq, Repr

/-- A live peer reference (`PeerHandle` in `src/p2p/peer.rs`); the send
queue endpoint is implicit in the output model. -/
structure PeerHandle where
  addr : SockAddr
  node_type : NodeType
deriving DecidableEq, Repr

/-- Constant `SEEN_TX_CACHE_LIMIT` of `src/manager.rs`. -/
def SEEN_TX_CACHE_LIMIT : Nat := 100000

/-- Constant `RECENT_TX_CACHE_LIMIT` of `src/manager.rs`. -/
def RECENT_TX_CACHE_LIMIT : Nat := 20000

/-- Constant `REQUESTED_TXID_TTL` of `src/manager.rs`, in seconds. -/
def REQUESTED_TXID_TTL : Nat := 120

/-- Constant `GETADDR_RESPONSE_LIMIT` of `src/manager.rs`. -/
def GETADDR_RESPONSE_LIMIT : Nat := 50

/-- Association-list key membership (`HashMap::contains_key`). -/
def alMem {α : Type} (k : Nat) (l : List (Nat × α)) : Bool :=
  l.any (fun p => p.1 == k)

/-- Association-list lookup (`HashMap::get`). -/
def alLookup {α : Type} (k : Nat) : List (Nat × α) → Option α
  | [] => none
  | p :: rest => if p.1 = k then some p.2 else alLookup k rest

/-- Association-list insert (`HashMap::insert`): replace in place when the
key is present, append otherwise. -/
def alInsert {α : Type} (k : Nat) (v : α) (l : List (Nat × α)) : List (Nat × α) :=
  if alMem k l then l.map (fun p => if p.1 = k then (k, v) else p) else l ++ [(k, v)]

/-- The process-wide `RelayState` of `src/manager.rs`. -/
structure RelayState where
  seen_txids : List Nat
  seen_order : List Nat
  requested_txids : List (Nat × Nat)
  tx_cache : List (Nat × Transaction)
  tx_by_wtxid : List (Nat × Nat)
  tx_cache_order : List Nat
deriving DecidableEq, Repr

/-- The initial (`Default`) relay state. -/
def RelayState.empty : RelayState :=
  ⟨[], [], [], [], [], []⟩

/-- The `while self.seen_order.len() > SEEN_TX_CACHE_LIMIT` eviction loop
inside `RelayState::mark_seen`: pop the oldest key from the order queue
and remove it from the seen set until the cap is met. -/
def evictSeen : List Nat → List Nat → List Nat × List Nat
  | seen, [] => (seen, [])
  | seen, oldest :: rest =>
      if (oldest :: rest).length > SEEN_TX_CACHE_LIMIT then
        evictSeen (seen.filter (fun x => x ≠ oldest)) rest
      else (seen, oldest :: rest)

/-- `RelayState::mark_seen`: insert the key into the seen set and order
queue unless already present, then evict down to the cap; returns whether
the key was new. -/
def markSeen (k : Nat) (s : RelayState) : Bool × RelayState :=
  if k ∈ s.seen_txids then (false, s)
  else
    let p := evictSeen (s.seen_txids ++ [k]) (s.seen_order ++ [k])
    (true, { s with seen_txids := p.1, seen_order := p.2 })

/-- `RelayState::cleanup_requested`: retain request records younger than
the 120 s TTL (`now.duration_since(*requested_at) < REQUESTED_TXID_TTL`;
`Instant::duration_since` saturates at zero, as does `Nat` subtraction). -/
def cleanupRequested (now : Nat) (s : RelayState) : RelayState :=
  { s with requested_txids :=
      s.requested_txids.filter (fun p => now - p.2 < REQUESTED_TXID_TTL) }

/-- `RelayState::mark_requested`: GC stale requests, then refuse keys that
are seen or already requested; otherwise record the request time. -/
def markRequested (k : Nat) (now : Nat) (s : RelayState) : Bool × RelayState :=
  let s1 := cleanupRequested now s
  if k ∈ s1.seen_txids ∨ s1.requested_txids.any (fun p => p.1 == k) then
    (false, s1)
  else
    (true, { s1 with requested_txids := s1.requested_txids ++ [(k, now)] })

/-- `RelayState::complete_request`: drop the key from the requested map. -/
def completeRequest (k : Nat) (s : RelayState) : RelayState :=
  { s with requested_txids := s.requested_txids.filter (fun p => decide (p.1 ≠ k)) }

/-- The `while self.tx_cache_order.len() > RECENT_TX_CACHE_LIMIT` eviction
loop inside `RelayState::insert_tx`: pop the oldest txid, drop every
wtxid-index entry mapping to it, and remove it from the cache. -/
def evictTx : List (Nat × Transaction) → List (Nat × Nat) → List Nat →
    List (Nat × Transaction) × List (Nat × Nat) × List Nat
  | cache, byW, [] => (cache, byW, [])
  | cache, byW, oldest :: rest =>
      if (oldest :: rest).length > RECENT_TX_CACHE_LIMIT then
        evictTx (cache.filter (fun p => decide (p.1 ≠ oldest)))
          (byW.filter (fun p => decide (p.2 ≠ oldest))) rest
      else (cache, byW, oldest :: rest)

/-- `RelayState::insert_tx`: record the wtxid→txid mapping, push the txid
on the FIFO order when not cached yet, store the transaction, then evict
down to the cap. -/
def insertTx (txid : Nat) (tx : Transaction) (s : RelayState) : RelayState :=
  let byW := alInsert tx.wtxid txid s.tx_by_wtxid
  let order := if alMem txid s.tx_cache then s.tx_cache_order
               else s.tx_cache_order ++ [txid]
  let cache := alInsert txid tx s.tx_cache
  let r := evictTx cache byW order
  { s with tx_cache := r.1, tx_by_wtxid := r.2.1, tx_cache_order := r.2.2 }

/-- `RelayState::get_tx`. -/
def getTx (txid : Nat) (s : RelayState) : Option Transaction :=
  alLookup txid s.tx_cache

/-- `RelayState::get_tx_by_wtxid`. -/
def getTxByWtxid (wtxid : Nat) (s : RelayState) : Option Transaction :=
  (alLookup wtxid s.tx_by_wtxid).bind (fun t => getTx t s)

/-- The free function `inventory_key` of `src/manager.rs`. -/
def inventoryKey : Inventory → Option Nat
  | .Transaction txid => some txid
  | .WTx wtxid => some wtxid
  | .WitnessTransaction wtxid => some wtxid
  | _ => none

/-- The telemetry counters of `src/metrics.rs` that the modelled dispatch
paths touch (Prometheus `IntCounter`s, modelled as `Nat`). -/
structure Metrics where
  transactions_received : Nat
  transactions_received_from_knots : Nat
  transactions_received_from_core : Nat
  transactions_received_from_libre : Nat
  transactions_received_from_other : Nat
  transactions_received_from_unknown : Nat
  transactions_relayed : Nat
  inv_messages_received : Nat
  getaddr_messages_received : Nat
deriving DecidableEq, Repr

/-- The all-zero metrics registry. -/
def Metrics.zero : Metrics := ⟨0, 0, 0, 0, 0, 0, 0, 0, 0⟩

/-- `Metrics::inc_transactions_received_from` of `src/metrics.rs`. -/
def incTransactionsReceivedFrom (nt : NodeType) (m : Metrics) : Metrics :=
  match nt with
  | .Knots => { m with transactions_received_from_knots := m.transactions_received_from_knots + 1 }
  | .Core => { m with transactions_received_from_core := m.transactions_received_from_core + 1 }
  | .LibreRelay => { m with transactions_received_from_libre := m.transactions_received_from_libre + 1 }
  | .Other => { m with transactions_received_from_other := m.transactions_received_from_other + 1 }
  | .Unknown => { m with transactions_received_from_unknown := m.transactions_received_from_unknown + 1 }

/-- The manager-owned mutable state that `PeerManager::handle_message`
reads and writes: the relay state and the metrics registry. -/
structure MgrState where
  relay : RelayState
  metrics : Metrics
deriving DecidableEq, Repr

/-- `PeerManager::send_to_peer`: look the destination up in the peer list
and send when present (sends succeed in this model). -/
def sendToPeer (peers : List PeerHandle) (dest : SockAddr) (msg : Message) :
    List (SockAddr × Message) :=
  if peers.any (fun p => p.addr == dest) then [(dest, msg)] else []

/-- `PeerManager::peer_node_type`: classification of the peer at the given
address, `Unknown` when absent. -/
def peerNodeType (peers : List PeerHandle) (a : SockAddr) : NodeType :=
  ((peers.find? (fun p => p.addr == a)).map PeerHandle.node_type).getD .Unknown

/-- `PeerManager::relay_inv`: send the inventory announcement to every
listed peer except the originating address and except `Knots` peers. -/
def relayInv (peers : List PeerHandle) (sender : SockAddr) (invList : List Inventory) :
    List (SockAddr × Message) :=
  (peers.filter (fun p => decide (p.addr ≠ sender) && decide (p.node_type ≠ NodeType.Knots))).map
    (fun p => (p.addr, Message.Inv invList))

/-- The `for inv in inv_list` loop of the `Inv` arm of
`PeerManager::handle_message`: thread the relay state through
`mark_requested`, collecting the accepted entries for `getdata`. -/
def processInvList (l : List Inventory) (rs : RelayState) (now : Nat) :
    RelayState × List Inventory :=
  match l with
  | [] => (rs, [])
  | inv :: rest =>
    match inventoryKey inv with
    | none => processInvList rest rs now
    | some k =>
      let r := markRequested k now rs
      let rec_ := processInvList rest r.2 now
      (rec_.1, if r.1 then inv :: rec_.2 else rec_.2)

/-- `PeerManager::handle_message` of `src/manager.rs`.  Parameters beyond
the message: `shuffle` stands for the `rand::thread_rng` shuffle of the
`GetAddr` arm, `now` for `Instant::now()` in the `Inv` arm, and `nowTs`
for `Utc::now().timestamp()` in the `GetAddr` arm.  The result is the new
manager state and the list of sends performed. -/
def handleMessage (shuffle : List SockAddr → List SockAddr) (now : Nat) (nowTs : Int)
    (peers : List PeerHandle) (sender : SockAddr) (msg : Message) (st : MgrState) :
    MgrState × List (SockAddr × Message) :=
  match msg with
  | .Inv invList =>
      let m1 := { st.metrics with
        inv_messages_received := st.metrics.inv_messages_received + invList.length }
      let r := processInvList invList st.relay now
      let outs := if r.2.isEmpty then [] else sendToPeer peers sender (.GetData r.2)
      ({ relay := r.1, metrics := m1 }, outs)
  | .Tx tx =>
      let txidKey := tx.txid
      let wtxidKey := tx.wtxid
      let sourceType := peerNodeType peers sender
      let rs0 := completeRequest wtxidKey (completeRequest txidKey st.relay)
      let r1 := markSeen txidKey rs0
      let r2 := markSeen wtxidKey r1.2
      let rs3 := if r1.1 then insertTx tx.txid tx r2.2 else r2.2
      if r1.1 then
        ({ relay := rs3,
           metrics := incTransactionsReceivedFrom sourceType
             { st.metrics with
               transactions_received := st.metrics.transactions_received + 1 } },
         relayInv peers sender [Inventory.Transaction tx.txid])
      else ({ relay := rs3, metrics := st.metrics }, [])
  | .GetData requests =>
      let toSend := requests.filterMap (fun inv =>
        match inv with
        | .Transaction txid => getTx txid st.relay
        | .WitnessTransaction txid => getTx txid st.relay
        | .WTx wtxid => getTxByWtxid wtxid st.relay
        | _ => none)
      let outs := toSend.filterMap (fun tx =>
        if peers.any (fun p => p.addr == sender) then some (sender, Message.Tx tx) else none)
      let sent := outs.length
      let m1 := if sent > 0 then
          { st.metrics with transactions_relayed := st.metrics.transactions_relayed + sent }
        else st.metrics
      ({ st with metrics := m1 }, outs)
  | .GetAddr =>
      let m1 := { st.metrics with
        getaddr_messages_received := st.metrics.getaddr_messages_received + 1 }
      let candidates := (peers.filter (fun p => decide (p.addr ≠ sender))).map PeerHandle.addr
      let truncated := (shuffle candidates).take GETADDR_RESPONSE_LIMIT
      let timestamp := (max nowTs 0).toNat % 4294967296
      let response := truncated.map (fun a =>
        ({ services := 0, addr := a, timestamp := timestamp } : AddressEntry))
      let outs := if response.isEmpty then []
        else sendToPeer peers sender (.Addr response)
      ({ st with metrics := m1 }, outs)
  | _ => (st, [])

/-- Constant `MAX_MESSAGE_SIZE` of `src/p2p/peer.rs` (4 MiB). -/
def MAX_MESSAGE_SIZE : Nat := 4 * 1024 * 1024

/-- Little-endian payload length from header bytes 16..19 of the frame
buffer (`u32::from_le_bytes([buf[16], buf[17], buf[18], buf[19]])`). -/
def payloadLenAt (buf : List Nat) : Nat :=
  buf.getD 16 0 + 256 * buf.getD 17 0 + 65536 * buf.getD 18 0 + 16777216 * buf.getD 19 0

/-- The loop body of `Peer::process_buffer`, structurally recursive on a
fuel argument.  Each iteration consumes a complete 24-byte-header frame
(at least 24 bytes), so fuel `buf.length` is never exhausted.  Returns the
remaining accumulator and the complete frames split off (in order); an
oversized declared payload discards the whole accumulator and stops. -/
def processBufferF : Nat → List Nat → List Nat × List (List Nat)
  | 0, buf => (buf, [])
  | fuel + 1, buf =>
    if buf.length < 24 then (buf, [])
    else
      let plen := payloadLenAt buf
      if plen > MAX_MESSAGE_SIZE then ([], [])
      else
        let total := 24 + plen
        if buf.length < total then (buf, [])
        else
          let frame := buf.take total
          let r := processBufferF fuel (buf.drop total)
          (r.1, frame :: r.2)

/-- `Peer::process_buffer` of `src/p2p/peer.rs`. -/
def processBuffer (buf : List Nat) : List Nat × List (List Nat) :=
  processBufferF buf.length buf

/-- Outcome of one socket read in the `Peer::run` select loop. -/
inductive ReadResult where
  | closed
  | errR
  | bytes (data : List Nat)
deriving DecidableEq, Repr

/-- One iteration of the read arm of `Peer::run`: a zero-byte read or a
read error emits `Disconnected` and terminates the endpoint (`none`);
otherwise the bytes are appended to the accumulator and
`process_buffer` drains it, after which the loop continues (`some`
carrying the remaining accumulator). -/
def runStep (acc : List Nat) (r : ReadResult) : Option (List Nat) :=
  match r with
  | .closed => none
  | .errR => none
  | .bytes data => some (processBuffer (acc ++ data)).1

/-- Destination of a message inside `Peer::handle_message` of
`src/p2p/peer.rs` before anything reaches the manager. -/
inductive RoutedEvent where
  | localPong (nonce : Nat)
  | addresses (entries : List AddressEntry)
  | forwarded (msg : Message)
deriving DecidableEq, Repr

/-- `Peer::handle_message`: `Ping` is answered locally, `Addr` becomes the
`PeerEvent::Addresses` event, everything else is forwarded to the manager
as a `PeerEvent::Message`. -/
def peerRoute : Message → RoutedEvent
  | .Ping n => .localPong n
  | .Addr entries => .addresses entries
  | m => .forwarded m


/-- Address-store row (`NodeInfo` in `src/db.rs`); timestamps are integer
seconds rather than RFC-3339 strings. -/
structure NodeInfo where
  addr : SockAddr
  node_type : NodeType
  user_agent : Option String
  version : Option Int
  services : Option Nat
  last_seen : Int
  last_connected : Option Int
  connection_failures : Nat
  is_reachable : Bool
deriving DecidableEq, Repr

/-- The `CASE node_type ... END` priority of the `get_knots_excluding`
query in `src/db.rs`: libre 0, core 1, other 2, unknown 3, else 4. -/
def typePriority : NodeType → Nat
  | .LibreRelay => 0
  | .Core => 1
  | .Other => 2
  | .Unknown => 3
  | .Knots => 4

/-- The `ORDER BY` relation of `get_knots_excluding`: ascending type
priority, then `last_seen` descending. -/
def dialOrder (a b : NodeInfo) : Bool :=
  decide (typePriority a.node_type < typePriority b.node_type) ||
    (decide (typePriority a.node_type = typePriority b.node_type) &&
      decide (b.last_seen ≤ a.last_seen))

/-- Row selection of `AddressDb::get_knots_excluding`: reachable rows not
classified `knots`, sorted by `dialOrder`, limited. -/
def knotsExcludingRows (db : List NodeInfo) (limit : Nat) : List NodeInfo :=
  ((db.filter (fun r => decide (r.node_type ≠ NodeType.Knots) && r.is_reachable)).mergeSort
    dialOrder).take limit

/-- `AddressDb::get_knots_excluding`: the addresses of the selected rows. -/
def getKnotsExcluding (db : List NodeInfo) (limit : Nat) : List SockAddr :=
  (knotsExcludingRows db limit).map NodeInfo.addr

/-- The row-level effect of `AddressDb::mark_failed`: increment the
failure counter; the reachability `CASE` reads the pre-update counter, so
the row becomes unreachable exactly when the incremented count reaches 5. -/
def markFailedRow (r : NodeInfo) : NodeInfo :=
  { r with connection_failures := r.connection_failures + 1,
           is_reachable := if r.connection_failures + 1 ≥ 5 then false else r.is_reachable }

/-- The row-level effect of `AddressDb::mark_connected`. -/
def markConnectedRow (now : Int) (r : NodeInfo) : NodeInfo :=
  { r with last_connected := some now, connection_failures := 0, is_reachable := true }

/-- Rust `Ipv4Addr::is_private`: 10.0.0.0/8, 172.16.0.0/12, 192.168.0.0/16. -/
def isPrivateV4 (a b : Nat) : Bool :=
  a == 10 || (a == 172 && decide (16 ≤ b) && decide (b ≤ 31)) || (a == 192 && b == 168)

/-- Rust `Ipv4Addr::is_documentation`: 192.0.2.0/24, 198.51.100.0/24,
203.0.113.0/24. -/
def isDocumentationV4 (a b c : Nat) : Bool :=
  (a == 192 && b == 0 && c == 2) || (a == 198 && b == 51 && c == 100) ||
    (a == 203 && b == 0 && c == 113)

/-- The free function `is_public_addr` of `src/discovery.rs`, with the
Rust standard library IPv4/IPv6 classification predicates inlined. -/
def isPublicAddr (sa : SockAddr) : Bool :=
  match sa.ip with
  | .V4 a b c d =>
      !(isPrivateV4 a b) && !(a == 127) && !(a == 169 && b == 254) &&
        !(decide (224 ≤ a) && decide (a ≤ 239)) &&
        !(a == 255 && b == 255 && c == 255 && d == 255) &&
        !(isDocumentationV4 a b c)
  | .V6 segs =>
      !(segs == [0, 0, 0, 0, 0, 0, 0, 1]) && !((segs.getD 0 0) / 256 == 255) &&
        !(segs == [0, 0, 0, 0, 0, 0, 0, 0])

/-- `AddressDb::insert_or_update`: upsert by address (primary key);
returns whether the row was new together with the updated table. -/
def insertOrUpdate (info : NodeInfo) (db : List NodeInfo) : Bool × List NodeInfo :=
  if db.any (fun r => r.addr == info.addr) then
    (false, db.map (fun r => if r.addr == info.addr then info else r))
  else (true, db ++ [info])

/-- `DiscoveryService::handle_new_addresses`: each gossiped entry passing
the public-address predicate is upserted as `Unknown`, reachable,
`last_seen = now`, services from the advertisement. -/
def handleNewAddresses (now : Int) (entries : List AddressEntry) (db : List NodeInfo) :
    List NodeInfo :=
  entries.foldl (fun acc e =>
    if isPublicAddr e.addr then
      (insertOrUpdate
        { addr := e.addr, node_type := .Unknown, user_agent := none, version := none,
          services := some e.services, last_seen := now, last_connected := none,
          connection_failures := 0, is_reachable := true } acc).2
    else acc) db

/-- Effect of one inbound message on the address store, composing the
endpoint routing of `Peer::handle_message` with the manager event loop:
an `Addresses` event reaches `DiscoveryService::handle_new_addresses`,
while a forwarded `Message` event goes to `PeerManager::handle_message`,
which never writes the address store. -/
def ingest (now : Int) (msg : Message) (db : List NodeInfo) : List NodeInfo :=
  match peerRoute msg with
  | .addresses entries => handleNewAddresses now entries db
  | _ => db

lemma markFailedRow_iterate (r : NodeInfo) (hReach : r.is_reachable = true)
    (hZero : r.connection_failures = 0) (n : Nat) :
    (markFailedRow^[n] r).connection_failures = n ∧
      ((markFailedRow^[n] r).is_reachable = true ↔ n < 5) := by
  induction n with
  | zero => simp [hZero, hReach]
  | succ n ih =>
    rw [Function.iterate_succ_apply']
    refine ⟨by simp [markFailedRow, ih.1], ?_⟩
    simp only [markFailedRow, ih.1]
    by_cases h5 : n + 1 ≥ 5
    · simp [h5]
    · simp only [if_neg h5]
      rw [ih.2]
      omega

/-- C7: starting from a reachable row with zero failures, every
`mark_failed` increments the failure counter by one, the row is reachable
exactly while fewer than five failures have accumulated, and a subsequent
`mark_connected` resets the counter, restores reachability and stamps
`last_connected`. -/
theorem c7_reachability_transition (r : NodeInfo) (hReach : r.is_reachable = true)
    (hZero : r.connection_failures = 0) :
    (∀ s : NodeInfo, (markFailedRow s).connection_failures = s.connection_failures + 1) ∧
    (∀ n : Nat, (markFailedRow^[n] r).connection_failures = n) ∧
    (∀ n : Nat, ((markFailedRow^[n] r).is_reachable = true ↔ n < 5)) ∧
    (∀ (n : Nat) (now : Int),
      (markConnectedRow now (markFailedRow^[n] r)).connection_failures = 0 ∧
      (markConnectedRow now (markFailedRow^[n] r)).is_reachable = true ∧
      (markConnectedRow now (markFailedRow^[n] r)).last_connected = some now) := by
  refine ⟨fun s => by simp [markFailedRow],
    fun n => (markFailedRow_iterate r hReach hZero n).1,
    fun n => (markFailedRow_iterate r hReach hZero n).2,
    fun n now => ⟨rfl, rfl, rfl⟩⟩

/-- Concrete reachable row used by witnesses. -/
def rowW : NodeInfo :=
  { addr := ⟨.V4 8 8 8 8, 8333⟩, node_type := .Core, user_agent := none,
    version := none, services := none, last_seen := 0, last_connected := none,
    connection_failures := 0, is_reachable := true }

/-- Witness for C7 at a concrete row: five failures flip reachability off
and a reconnect restores it. -/
theorem c7_reachability_transition_witness :
    ((markFailedRow^[5] rowW).is_reachable = true ↔ 5 < 5) ∧
      (markFailedRow^[5] rowW).connection_failures = 5 ∧
      (markConnectedRow 42 (markFailedRow^[5] rowW)).is_reachable = true :=
  ⟨(c7_reachability_transition rowW rfl rfl).2.2.1 5,
   (c7_reachability_transition rowW rfl rfl).2.1 5,
   ((c7_reachability_transition rowW rfl rfl).2.2.2 5 42).2.1⟩

lemma dialOrder_trans (a b c : NodeInfo) (hab : dialOrder a b = true)
    (hbc : dialOrder b c = true) : dialOrder a c = true := by
  simp only [dialOrder, Bool.or_eq_true, Bool.and_eq_true, decide_eq_true_eq] at *
  omega

lemma dialOrder_total (a b : NodeInfo) : (dialOrder a b || dialOrder b a) = true := by
  simp only [dialOrder, Bool.or_eq_true, Bool.and_eq_true, decide_eq_true_eq]
  omega

/-- C6: the dial pool returns only addresses of reachable, non-Knots
rows, ordered by the fixed type priority and then by `last_seen`
descending; under the primary-key constraint no returned address has a
stored `node_type` of Knots. -/
theorem c6_dial_pool (db : List NodeInfo) (limit : Nat)
    (hKey : (db.map NodeInfo.addr).Nodup) :
    (∀ a ∈ getKnotsExcluding db limit,
      ∃ r ∈ db, r.addr = a ∧ r.is_reachable = true ∧ r.node_type ≠ NodeType.Knots) ∧
    List.Pairwise (fun a b => dialOrder a b = true) (knotsExcludingRows db limit) ∧
    (∀ a ∈ getKnotsExcluding db limit, ∀ r ∈ db, r.addr = a →
      r.node_type ≠ NodeType.Knots ∧ r.is_reachable = true) := by
  have hRowMem : ∀ r ∈ knotsExcludingRows db limit,
      r ∈ db ∧ r.is_reachable = true ∧ r.node_type ≠ NodeType.Knots := by
    intro r hr
    have h1 : r ∈ (db.filter
        (fun r => decide (r.node_type ≠ NodeType.Knots) && r.is_reachable)).mergeSort dialOrder :=
      (List.take_sublist _ _).subset hr
    have h2 := (List.mergeSort_perm
      (db.filter (fun r => decide (r.node_type ≠ NodeType.Knots) && r.is_reachable))
      dialOrder).subset h1
    rw [List.mem_filter] at h2
    obtain ⟨hmem, hp⟩ := h2
    simp only [Bool.and_eq_true, decide_eq_true_eq] at hp
    exact ⟨hmem, hp.2, hp.1⟩
  have hMemCons : ∀ a ∈ getKnotsExcluding db limit,
      ∃ r ∈ db, r.addr = a ∧ r.is_reachable = true ∧ r.node_type ≠ NodeType.Knots := by
    intro a ha
    obtain ⟨r, hr, rfl⟩ := List.mem_map.mp ha
    exact ⟨r, (hRowMem r hr).1, rfl, (hRowMem r hr).2.1, (hRowMem r hr).2.2⟩
  refine ⟨hMemCons, ?_, ?_⟩
  · exact List.Pairwise.sublist (List.take_sublist _ _)
      (List.sorted_mergeSort dialOrder_trans dialOrder_total _)
  · intro a ha r hr hra
    obtain ⟨r0, hr0, hr0a, hr0reach, hr0typ⟩ := hMemCons a ha
    have : r = r0 := List.inj_on_of_nodup_map hKey hr hr0 (hra.trans hr0a.symm)
    subst this
    exact ⟨hr0typ, hr0reach⟩

/-- Concrete reachable Knots row used by witnesses. -/
def rowK : NodeInfo :=
  { addr := ⟨.V4 9 9 9 9, 8333⟩, node_type := .Knots, user_agent := none,
    version := none, services := none, last_seen := 3, last_connected := none,
    connection_failures := 0, is_reachable := true }

/-- Witness for C6: the returned address of a concrete one-row table is
backed by a reachable non-Knots row. -/
theorem c6_dial_pool_witness :
    rowW.node_type ≠ NodeType.Knots ∧ rowW.is_reachable = true :=
  (c6_dial_pool [rowW] 10 (by decide)).2.2 rowW.addr
    (by simp [getKnotsExcluding, knotsExcludingRows, rowW])
    rowW (by simp) rfl

/-- C10: when the peer list holds no peer other than the requester, a
`GetAddr` dispatch sends nothing at all — the manager only sends an
`Addr` when the built response is non-empty. -/
theorem c10_getaddr_lone (shuffle : List SockAddr → List SockAddr) (now : Nat)
    (nowTs : Int) (peers : List PeerHandle) (sender : SockAddr) (st : MgrState)
    (hShuffle : ∀ l : List SockAddr, (shuffle l).Perm l)
    (hLone : ∀ p ∈ peers, p.addr = sender) :
    (handleMessage shuffle now nowTs peers sender .GetAddr st).2 = [] := by
  have hfil : List.filter (fun p => !decide (p.addr = sender)) peers = [] := by
    rw [List.filter_eq_nil_iff]
    intro p hp
    simp [hLone p hp]
  have hsh : shuffle ([] : List SockAddr) = [] := (hShuffle []).eq_nil
  simp [handleMessage, hfil, hsh]

/-- Concrete socket address used by witnesses. -/
def addrA : SockAddr := ⟨.V4 8 8 8 8, 8333⟩

/-- Concrete second socket address used by witnesses. -/
def addrB : SockAddr := ⟨.V4 9 9 9 9, 8334⟩

/-- Concrete initial manager state used by witnesses. -/
def st0 : MgrState := ⟨RelayState.empty, Metrics.zero⟩

/-- Witness for C10: a lone requester receives no `Addr` at all. -/
theorem c10_getaddr_lone_witness :
    (handleMessage id 0 0 [⟨addrA, .Core⟩] addrA .GetAddr st0).2 = [] :=
  c10_getaddr_lone id 0 0 [⟨addrA, .Core⟩] addrA st0 (fun l => List.Perm.refl l) (by decide)

/-- C8: every message sent in response to a `GetAddr` goes to the
requester and is a single `Addr` of at most 50 entries, none carrying the
requester's address, all drawn from the current peer list minus the
requester, each with `services = 0` and `timestamp = now`.  The shuffle
is an arbitrary permutation. -/
theorem c8_getaddr_bound (shuffle : List SockAddr → List SockAddr) (now : Nat)
    (nowTs : Int) (peers : List PeerHandle) (sender : SockAddr) (st : MgrState)
    (hShuffle : ∀ l : List SockAddr, (shuffle l).Perm l)
    (hTs0 : 0 ≤ nowTs) (hTsLt : nowTs < 4294967296) :
    ∀ pm ∈ (handleMessage shuffle now nowTs peers sender .GetAddr st).2,
      pm.1 = sender ∧ ∃ entries, pm.2 = Message.Addr entries ∧
        entries.length ≤ GETADDR_RESPONSE_LIMIT ∧
        ∀ e ∈ entries, e.addr ≠ sender ∧ (∃ p ∈ peers, p.addr = e.addr) ∧
          e.services = 0 ∧ e.timestamp = nowTs.toNat := by
  intro pm hpm
  simp only [handleMessage] at hpm
  set cand := (peers.filter (fun p => decide (p.addr ≠ sender))).map PeerHandle.addr with hcand
  set resp := ((shuffle cand).take GETADDR_RESPONSE_LIMIT).map (fun a =>
    ({ services := 0, addr := a,
       timestamp := (max nowTs 0).toNat % 4294967296 } : AddressEntry)) with hresp
  have hpm2 : pm = (sender, Message.Addr resp) := by
    by_cases hne : resp.isEmpty
    · simp [hne] at hpm
    · simp only [hne, if_false, Bool.false_eq_true, sendToPeer] at hpm
      by_cases hany : peers.any (fun p => p.addr == sender)
      · simp [hany] at hpm
        simp [hpm]
      · simp [hany] at hpm
  subst hpm2
  refine ⟨rfl, resp, rfl, ?_, ?_⟩
  · simp [hresp]
  · intro e he
    rw [hresp] at he
    obtain ⟨a, ha, rfl⟩ := List.mem_map.mp he
    have hacand : a ∈ cand := (hShuffle cand).subset ((List.take_sublist _ _).subset ha)
    rw [hcand] at hacand
    obtain ⟨p, hpmem, rfl⟩ := List.mem_map.mp hacand
    rw [List.mem_filter] at hpmem
    have hpneq : p.addr ≠ sender := by simpa using hpmem.2
    have hmax : max nowTs 0 = nowTs := max_eq_left hTs0
    have hlt : nowTs.toNat < 4294967296 := by omega
    refine ⟨hpneq, ⟨p, hpmem.1, rfl⟩, rfl, ?_⟩
    simp only [hmax]
    exact Nat.mod_eq_of_lt hlt

/-- The single response message of the concrete `GetAddr` run used to
witness C8. -/
def pmW : SockAddr × Message :=
  (addrA, Message.Addr [({ services := 0, addr := addrB, timestamp := 1700000000 } : AddressEntry)])

/-- Witness for C8 with two peers and identity shuffle: the concrete
response goes to the requester. -/
theorem c8_getaddr_bound_witness :
    (0 : Int) ≤ 1700000000 ∧ pmW.1 = addrA :=
  ⟨by decide,
   (c8_getaddr_bound id 0 1700000000 [⟨addrA, .Core⟩, ⟨addrB, .Knots⟩] addrA st0
     (fun l => List.Perm.refl l) (by decide) (by decide) pmW (by decide)).1⟩

/-- A 24-byte header whose little-endian payload length field declares
4 MiB + 1 bytes (bytes 16..19 are `01 00 40 00`). -/
def oversizedBuf : List Nat := List.replicate 16 0 ++ [1, 0, 64, 0] ++ List.replicate 4 0

/-- Counterexample for C4: on a frame header declaring an oversized
payload, the read-loop step does NOT terminate the endpoint — it
continues with an emptied accumulator, so the connection is not dropped. -/
theorem c4_counterexample :
    24 ≤ oversizedBuf.length ∧ MAX_MESSAGE_SIZE < payloadLenAt oversizedBuf ∧
      runStep [] (.bytes oversizedBuf) ≠ none ∧
      runStep [] (.bytes oversizedBuf) = some [] := by decide

/-- C4 (amended): when the streaming frame consumer encounters a header
whose declared payload length exceeds 4 MiB, it discards the entire
accumulated buffer; the connection is kept — the run loop continues
reading with an empty accumulator and no disconnect is signalled. -/
theorem c4_oversized_discards_and_continues (acc data : List Nat)
    (h24 : 24 ≤ (acc ++ data).length)
    (hOver : MAX_MESSAGE_SIZE < payloadLenAt (acc ++ data)) :
    runStep acc (.bytes data) = some [] := by
  simp only [runStep, processBuffer]
  obtain ⟨n, hn⟩ : ∃ n, (acc ++ data).length = n + 1 := ⟨(acc ++ data).length - 1, by omega⟩
  rw [hn]
  simp only [processBufferF]
  rw [if_neg (by omega), if_pos (by omega)]

/-- Witness for the amended C4 at the concrete oversized header. -/
theorem c4_oversized_discards_and_continues_witness :
    runStep [] (.bytes oversizedBuf) = some [] :=
  c4_oversized_discards_and_continues [] oversizedBuf (by decide) (by decide)

/-- A gossiped entry with a public IPv4 address (1.1.1.1:8333). -/
def entryPub : AddressEntry := { services := 0, addr := ⟨.V4 1 1 1 1, 8333⟩, timestamp := 0 }

/-- C4 and C3 context: evaluation showing the divergence claimed for C3.
The entry is public, yet an `AddrV2` message is routed to the manager as a
plain `Message` event, the manager's dispatch ignores it, and the address
store is left unchanged — whereas the same entry arriving in an `Addr`
message is upserted as `Unknown`, reachable, `last_seen = now`. -/
theorem c3_addrv2_not_ingested :
    isPublicAddr entryPub.addr = true ∧
    ingest 7 (.AddrV2 [entryPub]) [] = [] ∧
    peerRoute (.AddrV2 [entryPub]) = .forwarded (.AddrV2 [entryPub]) ∧
    handleMessage id 0 0 [] entryPub.addr (.AddrV2 [entryPub]) st0 = (st0, []) ∧
    ingest 7 (.Addr [entryPub]) [] =
      [{ addr := entryPub.addr, node_type := .Unknown, user_agent := none, version := none,
         services := some 0, last_seen := 7, last_connected := none,
         connection_failures := 0, is_reachable := true }] := by decide

lemma processInvList_skip (l1 l2 : List Inventory) (b : Inventory) (now : Nat)
    (hb : inventoryKey b = none) :
    ∀ rs : RelayState, processInvList (l1 ++ b :: l2) rs now = processInvList (l1 ++ l2) rs now := by
  induction l1 with
  | nil => intro rs; simp [processInvList, hb]
  | cons a l1 ih =>
    intro rs
    cases hk : inventoryKey a with
    | none =>
      simp only [List.cons_append, processInvList, hk]
      exact ih rs
    | some k =>
      simp only [List.cons_append, processInvList, hk, List.append_eq]
      rw [ih]

lemma markRequested_young (k now : Nat) (rs : RelayState) :
    ∀ p ∈ (markRequested k now rs).2.requested_txids, now - p.2 < REQUESTED_TXID_TTL := by
  intro p hp
  simp only [markRequested, cleanupRequested] at hp
  split at hp
  · have := (List.mem_filter.mp hp).2
    simpa using this
  · simp only [List.mem_append] at hp
    rcases hp with hp | hp
    · have := (List.mem_filter.mp hp).2
      simpa using this
    · simp only [List.mem_singleton] at hp
      subst hp
      simp [REQUESTED_TXID_TTL]

lemma markRequested_seen (k now : Nat) (rs : RelayState) :
    (markRequested k now rs).2.seen_txids = rs.seen_txids := by
  simp only [markRequested, cleanupRequested]
  split <;> rfl

lemma markRequested_fst_iff (k now : Nat) (rs : RelayState) :
    (markRequested k now rs).1 = true ↔
      (k ∉ rs.seen_txids ∧ ∀ t, (k, t) ∈ rs.requested_txids → REQUESTED_TXID_TTL ≤ now - t) := by
  simp only [markRequested, cleanupRequested]
  split
  · rename_i h
    constructor
    · intro hF
      exact absurd hF (by simp)
    · rintro ⟨hseen, hold⟩
      exfalso
      rcases h with h | h
      · exact hseen h
      · obtain ⟨p, hpmem, hpk⟩ := List.any_eq_true.mp h
        rw [List.mem_filter] at hpmem
        rw [beq_iff_eq] at hpk
        have hpe : (k, p.2) = p := by rw [← hpk]
        have h2 := hold p.2 (hpe ▸ hpmem.1)
        have h3 := hpmem.2
        simp only [decide_eq_true_eq] at h3
        omega
  · rename_i h
    rw [not_or] at h
    constructor
    · intro _
      refine ⟨h.1, ?_⟩
      intro t ht
      by_contra hlt
      apply h.2
      rw [List.any_eq_true]
      refine ⟨(k, t), List.mem_filter.mpr ⟨ht, ?_⟩, by simp⟩
      simp only [decide_eq_true_eq]
      omega
    · intro _
      rfl

lemma markRequested_accept_mem (k now : Nat) (rs : RelayState)
    (h : (markRequested k now rs).1 = true) :
    (k, now) ∈ (markRequested k now rs).2.requested_txids := by
  simp only [markRequested, cleanupRequested] at h ⊢
  by_cases hcond : k ∈ rs.seen_txids ∨
      ((rs.requested_txids.filter (fun p => decide (now - p.2 < REQUESTED_TXID_TTL))).any
        fun p => p.1 == k) = true
  · rw [if_pos hcond] at h
    exact absurd h (by simp)
  · rw [if_neg hcond]
    simp

lemma markRequested_requested_of_true (k now : Nat) (rs : RelayState)
    (h : (markRequested k now rs).1 = true) :
    (markRequested k now rs).2.requested_txids =
      (rs.requested_txids.filter (fun p => now - p.2 < REQUESTED_TXID_TTL)) ++ [(k, now)] ∧
    ∀ p ∈ rs.requested_txids.filter (fun p => now - p.2 < REQUESTED_TXID_TTL), p.1 ≠ k := by
  simp only [markRequested, cleanupRequested] at h ⊢
  by_cases hcond : k ∈ rs.seen_txids ∨
      ((rs.requested_txids.filter (fun p => decide (now - p.2 < REQUESTED_TXID_TTL))).any
        fun p => p.1 == k) = true
  · rw [if_pos hcond] at h
    exact absurd h (by simp)
  · rw [if_neg hcond]
    rw [not_or] at hcond
    refine ⟨rfl, ?_⟩
    intro p hp hpk
    apply hcond.2
    rw [List.any_eq_true]
    exact ⟨p, hp, by simp [hpk]⟩

lemma markRequested_ttl (k t : Nat) (rs : RelayState)
    (h : (markRequested k t rs).1 = true) :
    (markRequested k (t + REQUESTED_TXID_TTL) (markRequested k t rs).2).1 = true := by
  rw [markRequested_fst_iff]
  have h1 := (markRequested_fst_iff k t rs).mp h
  obtain ⟨hreq, hfresh⟩ := markRequested_requested_of_true k t rs h
  constructor
  · rw [markRequested_seen]
    exact h1.1
  · intro t' ht'
    rw [hreq, List.mem_append] at ht'
    rcases ht' with ht' | ht'
    · exact absurd rfl (hfresh _ ht')
    · simp only [List.mem_singleton, Prod.mk.injEq] at ht'
      omega

lemma handleInv_snd (shuffle : List SockAddr → List SockAddr) (now : Nat) (nowTs : Int)
    (peers : List PeerHandle) (sender : SockAddr) (invList : List Inventory) (st : MgrState) :
    (handleMessage shuffle now nowTs peers sender (.Inv invList) st).2 =
      if (processInvList invList st.relay now).2.isEmpty then []
      else sendToPeer peers sender (.GetData (processInvList invList st.relay now).2) := rfl

lemma handleInv_mem (shuffle : List SockAddr → List SockAddr) (now : Nat) (nowTs : Int)
    (peers : List PeerHandle) (sender : SockAddr) (invList : List Inventory) (st : MgrState) :
    ∀ pm ∈ (handleMessage shuffle now nowTs peers sender (.Inv invList) st).2,
      pm = (sender, Message.GetData (processInvList invList st.relay now).2) := by
  intro pm hpm
  rw [handleInv_snd] at hpm
  split at hpm
  · simp at hpm
  · simp only [sendToPeer] at hpm
    split at hpm
    · simpa using hpm
    · simp at hpm

lemma handleInv_len (shuffle : List SockAddr → List SockAddr) (now : Nat) (nowTs : Int)
    (peers : List PeerHandle) (sender : SockAddr) (invList : List Inventory) (st : MgrState) :
    (handleMessage shuffle now nowTs peers sender (.Inv invList) st).2.length ≤ 1 := by
  rw [handleInv_snd]
  split
  · simp
  · simp only [sendToPeer]
    split <;> simp

lemma handleInv_none (shuffle : List SockAddr → List SockAddr) (now : Nat) (nowTs : Int)
    (peers : List PeerHandle) (sender : SockAddr) (invList : List Inventory) (st : MgrState)
    (h : (processInvList invList st.relay now).2 = []) :
    (handleMessage shuffle now nowTs peers sender (.Inv invList) st).2 = [] := by
  rw [handleInv_snd, h]
  simp

lemma handleInv_send (shuffle : List SockAddr → List SockAddr) (now : Nat) (nowTs : Int)
    (peers : List PeerHandle) (sender : SockAddr) (invList : List Inventory) (st : MgrState)
    (h1 : peers.any (fun p => p.addr == sender) = true)
    (h2 : (processInvList invList st.relay now).2 ≠ []) :
    (handleMessage shuffle now nowTs peers sender (.Inv invList) st).2 =
      [(sender, Message.GetData (processInvList invList st.relay now).2)] := by
  rw [handleInv_snd]
  have hne : (processInvList invList st.relay now).2.isEmpty = false := by
    cases hc : (processInvList invList st.relay now).2 with
    | nil => exact absurd hc h2
    | cons x xs => simp [hc]
  rw [hne]
  simp only [sendToPeer, h1, Bool.false_eq_true, if_false, if_true]

/-- C5: for every `Inv` dispatch, keyless (block) entries are ignored;
`mark_requested` first garbage-collects request records older than 120 s,
accepts a key exactly when it is neither seen nor in a live request
record, and records accepted keys at the current instant; all accepted
entries are answered with at most one `GetData` to the announcer (none
when no entry is accepted, exactly one when the announcer is listed and
some entry is accepted); a key recorded at time `t` is accepted again at
`t + 120 s`. -/
theorem c5_inv_handling :
    (∀ (l1 l2 : List Inventory) (b : Inventory) (now : Nat) (rs : RelayState),
      inventoryKey b = none →
      processInvList (l1 ++ b :: l2) rs now = processInvList (l1 ++ l2) rs now) ∧
    (∀ (k now : Nat) (rs : RelayState),
      ∀ p ∈ (markRequested k now rs).2.requested_txids, now - p.2 < REQUESTED_TXID_TTL) ∧
    (∀ (k now : Nat) (rs : RelayState),
      (markRequested k now rs).1 = true ↔
        (k ∉ rs.seen_txids ∧ ∀ t, (k, t) ∈ rs.requested_txids → REQUESTED_TXID_TTL ≤ now - t)) ∧
    (∀ (k now : Nat) (rs : RelayState), (markRequested k now rs).1 = true →
      (k, now) ∈ (markRequested k now rs).2.requested_txids) ∧
    (∀ (shuffle : List SockAddr → List SockAddr) (now : Nat) (nowTs : Int)
      (peers : List PeerHandle) (sender : SockAddr) (invList : List Inventory) (st : MgrState),
      (∀ pm ∈ (handleMessage shuffle now nowTs peers sender (.Inv invList) st).2,
        pm = (sender, Message.GetData (processInvList invList st.relay now).2)) ∧
      (handleMessage shuffle now nowTs peers sender (.Inv invList) st).2.length ≤ 1 ∧
      ((processInvList invList st.relay now).2 = [] →
        (handleMessage shuffle now nowTs peers sender (.Inv invList) st).2 = []) ∧
      (peers.any (fun p => p.addr == sender) = true →
        (processInvList invList st.relay now).2 ≠ [] →
        (handleMessage shuffle now nowTs peers sender (.Inv invList) st).2 =
          [(sender, Message.GetData (processInvList invList st.relay now).2)])) ∧
    (∀ (k t : Nat) (rs : RelayState), (markRequested k t rs).1 = true →
      (markRequested k (t + REQUESTED_TXID_TTL) (markRequested k t rs).2).1 = true) := by
  refine ⟨fun l1 l2 b now rs hb => processInvList_skip l1 l2 b now hb rs,
    markRequested_young, markRequested_fst_iff, markRequested_accept_mem,
    ?_, markRequested_ttl⟩
  intro shuffle now nowTs peers sender invList st
  exact ⟨handleInv_mem shuffle now nowTs peers sender invList st,
    handleInv_len shuffle now nowTs peers sender invList st,
    handleInv_none shuffle now nowTs peers sender invList st,
    handleInv_send shuffle now nowTs peers sender invList st⟩

/-- Witness for C5: a fresh key is accepted, then accepted again exactly
one TTL later on the resulting state. -/
theorem c5_inv_handling_witness :
    (markRequested 1 (0 + REQUESTED_TXID_TTL) (markRequested 1 0 RelayState.empty).2).1 = true :=
  c5_inv_handling.2.2.2.2.2 1 0 RelayState.empty (by decide)

/-- Reachable-state invariant of the seen set: the FIFO order queue has no
duplicates, mirrors the seen set, and respects the cap. -/
def SeenInv (s : RelayState) : Prop :=
  s.seen_order.Nodup ∧ (∀ x, x ∈ s.seen_txids ↔ x ∈ s.seen_order) ∧
    s.seen_order.length ≤ SEEN_TX_CACHE_LIMIT

lemma evictSeen_le (seen order : List Nat) (h : order.length ≤ SEEN_TX_CACHE_LIMIT) :
    evictSeen seen order = (seen, order) := by
  cases order with
  | nil => rfl
  | cons o rest =>
    have h' : rest.length + 1 ≤ SEEN_TX_CACHE_LIMIT := by simpa using h
    rw [evictSeen, if_neg (by simp; omega)]

lemma markSeen_of_mem (k : Nat) (s : RelayState) (h : k ∈ s.seen_txids) :
    markSeen k s = (false, s) := by
  simp [markSeen, h]

lemma completeRequest_seen (k : Nat) (s : RelayState) :
    (completeRequest k s).seen_txids = s.seen_txids := rfl

lemma insertTx_seen (txid : Nat) (tx : Transaction) (s : RelayState) :
    (insertTx txid tx s).seen_txids = s.seen_txids := rfl

lemma markSeen_fresh (k : Nat) (s : RelayState) (hInv : SeenInv s)
    (hk : k ∉ s.seen_txids) :
    (markSeen k s).1 = true ∧ SeenInv (markSeen k s).2 ∧
      ∃ X, (markSeen k s).2.seen_order = X ++ [k] ∧ k ∉ X := by
  obtain ⟨hnd, hmem, hlen⟩ := hInv
  have hkord : k ∉ s.seen_order := fun hx => hk ((hmem k).mpr hx)
  simp only [markSeen, if_neg hk]
  by_cases hc : s.seen_order.length + 1 ≤ SEEN_TX_CACHE_LIMIT
  · have he : evictSeen (s.seen_txids ++ [k]) (s.seen_order ++ [k]) =
        (s.seen_txids ++ [k], s.seen_order ++ [k]) :=
      evictSeen_le _ _ (by simpa using hc)
    rw [he]
    refine ⟨by trivial, ⟨?_, ?_, ?_⟩, s.seen_order, rfl, hkord⟩
    · rw [List.nodup_append]
      refine ⟨hnd, List.nodup_singleton k, ?_⟩
      intro a ha hak
      rw [List.mem_singleton] at hak
      subst hak
      exact hkord ha
    · intro x
      simp only [List.mem_append, List.mem_singleton]
      rw [hmem x]
    · simpa using hc
  · have hel : s.seen_order.length = SEEN_TX_CACHE_LIMIT := by omega
    obtain ⟨o, rest, horder⟩ : ∃ o rest, s.seen_order = o :: rest := by
      cases ho : s.seen_order with
      | nil => rw [ho] at hel; simp [SEEN_TX_CACHE_LIMIT] at hel
      | cons o rest => exact ⟨o, rest, rfl⟩
    have hrl : rest.length + 1 = SEEN_TX_CACHE_LIMIT := by
      rw [horder] at hel; simpa using hel
    have hone : o ∉ rest := (List.nodup_cons.mp (horder ▸ hnd)).1
    have hrnd : rest.Nodup := (List.nodup_cons.mp (horder ▸ hnd)).2
    have hko : k ≠ o := fun he => hkord (horder ▸ (he ▸ List.mem_cons_self o rest))
    have hkrest : k ∉ rest := fun hx => hkord (horder ▸ List.mem_cons_of_mem o hx)
    have he1 : evictSeen (s.seen_txids ++ [k]) (s.seen_order ++ [k]) =
        ((s.seen_txids ++ [k]).filter (fun x => x ≠ o), rest ++ [k]) := by
      rw [horder, List.cons_append, evictSeen, if_pos (by simp; omega)]
      exact evictSeen_le _ _ (by simp; omega)
    rw [he1]
    refine ⟨by trivial, ⟨?_, ?_, ?_⟩, rest, rfl, hkrest⟩
    · rw [List.nodup_append]
      refine ⟨hrnd, List.nodup_singleton k, ?_⟩
      intro a ha hak
      rw [List.mem_singleton] at hak
      subst hak
      exact hkrest ha
    · intro x
      rw [List.mem_filter]
      constructor
      · rintro ⟨hx1, hx2⟩
        simp only [decide_eq_true_eq] at hx2
        rcases List.mem_append.mp hx1 with hx | hx
        · have := (hmem x).mp hx
          rw [horder] at this
          rcases List.mem_cons.mp this with rfl | hxr
          · exact absurd rfl hx2
          · exact List.mem_append_left _ hxr
        · exact List.mem_append_right _ hx
      · intro hx
        rcases List.mem_append.mp hx with hx | hx
        · have hxo : x ≠ o := fun he => hone (he ▸ hx)
          refine ⟨List.mem_append_left _ ((hmem x).mpr ?_), by simp [hxo]⟩
          rw [horder]
          exact List.mem_cons_of_mem o hx
        · simp only [List.mem_singleton] at hx
          subst hx
          exact ⟨List.mem_append_right _ (List.mem_singleton.mpr rfl), by simp [hko]⟩
    · simp
      omega

lemma markSeen_keeps (k' : Nat) (s : RelayState) (k0 : Nat) (hInv : SeenInv s)
    (hshape : ∃ X, s.seen_order = X ++ [k0] ∧ k0 ∉ X) :
    k0 ∈ (markSeen k' s).2.seen_txids := by
  obtain ⟨hnd, hmem, hlen⟩ := hInv
  obtain ⟨X, hX, hk0X⟩ := hshape
  have hk0seen : k0 ∈ s.seen_txids :=
    (hmem k0).mpr (hX ▸ List.mem_append_right _ (List.mem_singleton.mpr rfl))
  by_cases hk' : k' ∈ s.seen_txids
  · rw [markSeen_of_mem k' s hk']
    exact hk0seen
  · simp only [markSeen, if_neg hk']
    by_cases hc : s.seen_order.length + 1 ≤ SEEN_TX_CACHE_LIMIT
    · rw [evictSeen_le _ _ (by simpa using hc)]
      exact List.mem_append_left _ hk0seen
    · have hel : s.seen_order.length = SEEN_TX_CACHE_LIMIT := by omega
      obtain ⟨o, rest, horder⟩ : ∃ o rest, s.seen_order = o :: rest := by
        cases ho : s.seen_order with
        | nil => rw [ho] at hel; simp [SEEN_TX_CACHE_LIMIT] at hel
        | cons o rest => exact ⟨o, rest, rfl⟩
      have hrl : rest.length + 1 = SEEN_TX_CACHE_LIMIT := by
        rw [horder] at hel; simpa using hel
      have hk0o : k0 ≠ o := by
        cases hXc : X with
        | nil =>
          exfalso
          rw [hXc] at hX
          rw [hX] at hel
          simp [SEEN_TX_CACHE_LIMIT] at hel
        | cons x0 X' =>
          intro hEq
          apply hk0X
          rw [hXc]
          have : x0 = o := by
            rw [hXc] at hX
            rw [horder] at hX
            exact ((List.cons.injEq _ _ _ _ ▸ hX).1).symm
          rw [this, ← hEq]
          exact List.mem_cons_self _ _
      rw [horder, List.cons_append, evictSeen, if_pos (by simp; omega),
        evictSeen_le _ _ (by simp; omega)]
      exact List.mem_filter.mpr ⟨List.mem_append_left _ hk0seen, by simp [hk0o]⟩

lemma markSeen_fst_true (k : Nat) (s : RelayState) (h : k ∉ s.seen_txids) :
    (markSeen k s).1 = true := by
  simp [markSeen, h]

lemma incFrom_transactions_received (nt : NodeType) (m : Metrics) :
    (incTransactionsReceivedFrom nt m).transactions_received = m.transactions_received := by
  cases nt <;> rfl

lemma handleTx_new (sh : List SockAddr → List SockAddr) (now : Nat) (ts : Int)
    (peers : List PeerHandle) (sender : SockAddr) (tx : Transaction) (st : MgrState)
    (hNew : tx.txid ∉ st.relay.seen_txids) :
    handleMessage sh now ts peers sender (.Tx tx) st =
      ({ relay := insertTx tx.txid tx
           (markSeen tx.wtxid (markSeen tx.txid
             (completeRequest tx.wtxid (completeRequest tx.txid st.relay))).2).2,
         metrics := incTransactionsReceivedFrom (peerNodeType peers sender)
           { st.metrics with
             transactions_received := st.metrics.transactions_received + 1 } },
       relayInv peers sender [Inventory.Transaction tx.txid]) := by
  have h0 : tx.txid ∉
      (completeRequest tx.wtxid (completeRequest tx.txid st.relay)).seen_txids := hNew
  simp only [handleMessage]
  rw [markSeen_fst_true _ _ h0]
  simp

lemma handleTx_old (sh : List SockAddr → List SockAddr) (now : Nat) (ts : Int)
    (peers : List PeerHandle) (sender : SockAddr) (tx : Transaction) (st : MgrState)
    (hOld : tx.txid ∈ st.relay.seen_txids) :
    handleMessage sh now ts peers sender (.Tx tx) st =
      ({ relay := (markSeen tx.wtxid
           (completeRequest tx.wtxid (completeRequest tx.txid st.relay))).2,
         metrics := st.metrics }, []) := by
  have h0 : tx.txid ∈
      (completeRequest tx.wtxid (completeRequest tx.txid st.relay)).seen_txids := hOld
  simp only [handleMessage]
  rw [markSeen_of_mem _ _ h0]
  simp

/-- C1: dispatching a fresh `Tx` from peer A announces
`Inv [Transaction txid]` to exactly the peers that are neither A nor
classified Knots — every non-Knots peer other than A receives it, and no
Knots peer and not A receives anything. -/
theorem c1_relay_filter (sh : List SockAddr → List SockAddr) (now : Nat) (ts : Int)
    (peers : List PeerHandle) (sender : SockAddr) (tx : Transaction) (st : MgrState)
    (hNew : tx.txid ∉ st.relay.seen_txids)
    (hNodup : (peers.map PeerHandle.addr).Nodup) :
    (handleMessage sh now ts peers sender (.Tx tx) st).2 =
      relayInv peers sender [Inventory.Transaction tx.txid] ∧
    (∀ p ∈ peers, p.addr ≠ sender → p.node_type ≠ NodeType.Knots →
      (p.addr, Message.Inv [Inventory.Transaction tx.txid]) ∈
        (handleMessage sh now ts peers sender (.Tx tx) st).2) ∧
    (∀ p ∈ peers, p.node_type = NodeType.Knots ∨ p.addr = sender →
      ∀ m, (p.addr, m) ∉ (handleMessage sh now ts peers sender (.Tx tx) st).2) := by
  have hmain := handleTx_new sh now ts peers sender tx st hNew
  have houts : (handleMessage sh now ts peers sender (.Tx tx) st).2 =
      relayInv peers sender [Inventory.Transaction tx.txid] := by rw [hmain]
  refine ⟨houts, ?_, ?_⟩
  · intro p hp hne hkn
    rw [houts]
    exact List.mem_map_of_mem _ (List.mem_filter.mpr ⟨hp, by simp [hne, hkn]⟩)
  · intro p hp hdisj m hmem
    rw [houts] at hmem
    obtain ⟨q, hq, heq⟩ := List.mem_map.mp hmem
    rw [List.mem_filter] at hq
    have hqa : q.addr = p.addr := congrArg Prod.fst heq
    have hqp : q = p := List.inj_on_of_nodup_map hNodup hq.1 hp hqa
    subst hqp
    have hcond := hq.2
    simp only [Bool.and_eq_true, decide_eq_true_eq] at hcond
    rcases hdisj with hkn | hsend
    · exact hcond.2 hkn
    · exact hcond.1 hsend

/-- Concrete third socket address used by witnesses. -/
def addrC : SockAddr := ⟨.V4 10 0 0 1, 8335⟩

/-- Witness for C1 with sender Core at addrA, a Knots peer and a Core
peer. -/
theorem c1_relay_filter_witness :
    (handleMessage id 0 0 [⟨addrA, .Core⟩, ⟨addrB, .Knots⟩, ⟨addrC, .Core⟩] addrA
        (.Tx ⟨5, 6⟩) st0).2 =
      relayInv [⟨addrA, .Core⟩, ⟨addrB, .Knots⟩, ⟨addrC, .Core⟩] addrA
        [Inventory.Transaction 5] :=
  (c1_relay_filter id 0 0 [⟨addrA, .Core⟩, ⟨addrB, .Knots⟩, ⟨addrC, .Core⟩] addrA
    ⟨5, 6⟩ st0 (by decide) (by decide)).1

/-- C2: dispatching the same `Tx` twice relays once and counts once: the
second dispatch sends nothing and leaves `transactions_received`
untouched, while the first dispatch incremented it by one and produced
the single re-announcement. -/
theorem c2_tx_idempotent (sh : List SockAddr → List SockAddr) (now : Nat) (ts : Int)
    (peers : List PeerHandle) (sender : SockAddr) (tx : Transaction) (st : MgrState)
    (hInv : SeenInv st.relay) (hNew : tx.txid ∉ st.relay.seen_txids) :
    (handleMessage sh now ts peers sender (.Tx tx)
        (handleMessage sh now ts peers sender (.Tx tx) st).1).2 = [] ∧
    ((handleMessage sh now ts peers sender (.Tx tx)
        (handleMessage sh now ts peers sender (.Tx tx) st).1).1).metrics.transactions_received =
      ((handleMessage sh now ts peers sender (.Tx tx) st).1).metrics.transactions_received ∧
    ((handleMessage sh now ts peers sender (.Tx tx) st).1).metrics.transactions_received =
      st.metrics.transactions_received + 1 ∧
    (handleMessage sh now ts peers sender (.Tx tx) st).2 =
      relayInv peers sender [Inventory.Transaction tx.txid] := by
  have hmain := handleTx_new sh now ts peers sender tx st hNew
  have hrs0Inv : SeenInv (completeRequest tx.wtxid (completeRequest tx.txid st.relay)) := hInv
  obtain ⟨hfst, hInv1, X, hX, hkX⟩ := markSeen_fresh tx.txid _ hrs0Inv hNew
  have h2 := markSeen_keeps tx.wtxid _ tx.txid hInv1 ⟨X, hX, hkX⟩
  have hseen1 : tx.txid ∈
      ((handleMessage sh now ts peers sender (.Tx tx) st).1).relay.seen_txids := by
    rw [hmain]
    exact h2
  have hold := handleTx_old sh now ts peers sender tx
    (handleMessage sh now ts peers sender (.Tx tx) st).1 hseen1
  refine ⟨by rw [hold], by rw [hold], ?_, by rw [hmain]⟩
  rw [hmain]
  simp [incFrom_transactions_received]

/-- Witness for C2 at the empty relay state with one Core co-peer. -/
theorem c2_tx_idempotent_witness :
    (handleMessage id 0 0 [⟨addrA, .Core⟩, ⟨addrC, .Core⟩] addrA (.Tx ⟨5, 6⟩)
        (handleMessage id 0 0 [⟨addrA, .Core⟩, ⟨addrC, .Core⟩] addrA (.Tx ⟨5, 6⟩) st0).1).2 = [] ∧
    ((handleMessage id 0 0 [⟨addrA, .Core⟩, ⟨addrC, .Core⟩] addrA (.Tx ⟨5, 6⟩) st0).1).metrics.transactions_received =
      st0.metrics.transactions_received + 1 :=
  ⟨(c2_tx_idempotent id 0 0 [⟨addrA, .Core⟩, ⟨addrC, .Core⟩] addrA ⟨5, 6⟩ st0
      ⟨List.nodup_nil, fun x => Iff.rfl, Nat.zero_le _⟩ (by decide)).1,
   (c2_tx_idempotent id 0 0 [⟨addrA, .Core⟩, ⟨addrC, .Core⟩] addrA ⟨5, 6⟩ st0
      ⟨List.nodup_nil, fun x => Iff.rfl, Nat.zero_le _⟩ (by decide)).2.2.1⟩

lemma alMem_iff_mem_keys {α : Type} (t : Nat) (l : List (Nat × α)) :
    alMem t l = true ↔ t ∈ l.map Prod.fst := by
  simp only [alMem, List.any_eq_true, beq_iff_eq, List.mem_map]

lemma mem_alInsert {α : Type} (k : Nat) (v : α) (l : List (Nat × α)) (q : Nat × α)
    (hq : q ∈ alInsert k v l) : q = (k, v) ∨ q ∈ l := by
  unfold alInsert at hq
  split at hq
  · obtain ⟨p, hp, he⟩ := List.mem_map.mp hq
    by_cases hpk : p.1 = k
    · rw [if_pos hpk] at he
      left
      exact he.symm
    · rw [if_neg hpk] at he
      right
      exact he ▸ hp
  · rcases List.mem_append.mp hq with h | h
    · right
      exact h
    · left
      simpa using h

lemma keys_alInsert_present {α : Type} (k : Nat) (v : α) (l : List (Nat × α))
    (h : alMem k l = true) : (alInsert k v l).map Prod.fst = l.map Prod.fst := by
  unfold alInsert
  rw [if_pos h, List.map_map]
  apply List.map_congr_left
  intro p hp
  by_cases hpk : p.1 = k
  · simp [hpk]
  · simp [hpk]

lemma keys_alInsert_absent {α : Type} (k : Nat) (v : α) (l : List (Nat × α))
    (h : alMem k l = false) : alInsert k v l = l ++ [(k, v)] := by
  unfold alInsert
  rw [h]
  simp

lemma alMem_alInsert {α : Type} (t k : Nat) (v : α) (l : List (Nat × α)) :
    alMem t (alInsert k v l) = true ↔ t = k ∨ alMem t l = true := by
  by_cases h : alMem k l = true
  · rw [alMem_iff_mem_keys, keys_alInsert_present k v l h, ← alMem_iff_mem_keys]
    constructor
    · intro ht
      right
      exact ht
    · rintro (rfl | ht)
      · exact h
      · exact ht
  · have hf : alMem k l = false := by simpa using h
    rw [keys_alInsert_absent k v l hf, alMem_iff_mem_keys, List.map_append,
      List.mem_append, ← alMem_iff_mem_keys]
    simp [Or.comm]

lemma keysNodup_alInsert {α : Type} (k : Nat) (v : α) (l : List (Nat × α))
    (h : (l.map Prod.fst).Nodup) : ((alInsert k v l).map Prod.fst).Nodup := by
  by_cases hm : alMem k l = true
  · rw [keys_alInsert_present _ _ _ hm]
    exact h
  · rw [keys_alInsert_absent _ _ _ (by simpa using hm)]
    rw [List.map_append, List.nodup_append]
    refine ⟨h, by simp, ?_⟩
    intro a ha hb
    simp only [List.map_cons, List.map_nil, List.mem_singleton] at hb
    subst hb
    rw [← alMem_iff_mem_keys] at ha
    exact hm ha

lemma alMem_filter_keyne {α : Type} (t o : Nat) (l : List (Nat × α)) :
    alMem t (l.filter (fun p => decide (p.1 ≠ o))) = true ↔ alMem t l = true ∧ t ≠ o := by
  simp only [alMem, List.any_eq_true, beq_iff_eq, List.mem_filter, decide_eq_true_eq]
  constructor
  · rintro ⟨p, ⟨hp, hpo⟩, rfl⟩
    exact ⟨⟨p, hp, rfl⟩, hpo⟩
  · rintro ⟨⟨p, hp, rfl⟩, hto⟩
    exact ⟨p, ⟨hp, hto⟩, rfl⟩

lemma keysNodup_filter {α : Type} (q : Nat × α → Bool) (l : List (Nat × α))
    (h : (l.map Prod.fst).Nodup) : ((l.filter q).map Prod.fst).Nodup :=
  List.Nodup.sublist (List.Sublist.map Prod.fst (List.filter_sublist l)) h

lemma evictTx_inv : ∀ (order : List Nat) (cache : List (Nat × Transaction))
    (byW : List (Nat × Nat)),
    (∀ t, alMem t cache = true ↔ t ∈ order) → order.Nodup →
    (cache.map Prod.fst).Nodup → (∀ p ∈ byW, alMem p.2 cache = true) →
    (∀ t, alMem t (evictTx cache byW order).1 = true ↔ t ∈ (evictTx cache byW order).2.2) ∧
    (evictTx cache byW order).2.2.Nodup ∧
    ((evictTx cache byW order).1.map Prod.fst).Nodup ∧
    (∀ p ∈ (evictTx cache byW order).2.1, alMem p.2 (evictTx cache byW order).1 = true) ∧
    (evictTx cache byW order).2.2.length ≤ RECENT_TX_CACHE_LIMIT := by
  intro order
  induction order with
  | nil =>
    intro cache byW hmem hnd hknd hres
    exact ⟨hmem, List.nodup_nil, hknd, hres, Nat.zero_le _⟩
  | cons o rest ih =>
    intro cache byW hmem hnd hknd hres
    have hone : o ∉ rest := (List.nodup_cons.mp hnd).1
    have hrnd : rest.Nodup := (List.nodup_cons.mp hnd).2
    by_cases hlen : (o :: rest).length > RECENT_TX_CACHE_LIMIT
    · rw [evictTx, if_pos hlen]
      apply ih
      · intro t
        rw [alMem_filter_keyne]
        constructor
        · rintro ⟨ha, hto⟩
          rcases List.mem_cons.mp ((hmem t).mp ha) with rfl | ht
          · exact absurd rfl hto
          · exact ht
        · intro ht
          exact ⟨(hmem t).mpr (List.mem_cons_of_mem o ht), fun he => hone (he ▸ ht)⟩
      · exact hrnd
      · exact keysNodup_filter _ _ hknd
      · intro p hp
        rw [List.mem_filter] at hp
        have hpo : p.2 ≠ o := by simpa using hp.2
        rw [alMem_filter_keyne]
        exact ⟨hres p hp.1, hpo⟩
    · rw [evictTx, if_neg hlen]
      exact ⟨hmem, hnd, hknd, hres, Nat.not_lt.mp hlen⟩

lemma length_eq_of_mem_iff (cache : List (Nat × Transaction)) (order : List Nat)
    (hknd : (cache.map Prod.fst).Nodup) (hnd : order.Nodup)
    (hmem : ∀ t, alMem t cache = true ↔ t ∈ order) :
    cache.length = order.length := by
  have hperm : (cache.map Prod.fst).Perm order := by
    rw [List.perm_ext_iff_of_nodup hknd hnd]
    intro t
    rw [← alMem_iff_mem_keys]
    exact hmem t
  have hl := hperm.length_eq
  simpa using hl

/-- Reachable-state invariant of the transaction cache claimed by the
spec: the FIFO order has no duplicates and mirrors the cached key set,
cached keys are distinct, every wtxid-index entry resolves to a cached
txid, and the cache respects the 20 000 cap. -/
def CacheInv (s : RelayState) : Prop :=
  s.tx_cache_order.Nodup ∧
  (∀ t, alMem t s.tx_cache = true ↔ t ∈ s.tx_cache_order) ∧
  (s.tx_cache.map Prod.fst).Nodup ∧
  (∀ p ∈ s.tx_by_wtxid, alMem p.2 s.tx_cache = true) ∧
  s.tx_cache_order.length ≤ RECENT_TX_CACHE_LIMIT

lemma CacheInv_cache_len (s : RelayState) (h : CacheInv s) :
    s.tx_cache.length ≤ RECENT_TX_CACHE_LIMIT := by
  obtain ⟨hnd, hmem, hknd, _, hlen⟩ := h
  rw [length_eq_of_mem_iff s.tx_cache s.tx_cache_order hknd hnd hmem]
  exact hlen

lemma CacheInv_of_fields (s s' : RelayState) (h1 : s'.tx_cache = s.tx_cache)
    (h2 : s'.tx_by_wtxid = s.tx_by_wtxid) (h3 : s'.tx_cache_order = s.tx_cache_order)
    (h : CacheInv s) : CacheInv s' := by
  unfold CacheInv at *
  rw [h1, h2, h3]
  exact h

lemma markSeen_cacheFields (k : Nat) (s : RelayState) :
    (markSeen k s).2.tx_cache = s.tx_cache ∧ (markSeen k s).2.tx_by_wtxid = s.tx_by_wtxid ∧
      (markSeen k s).2.tx_cache_order = s.tx_cache_order := by
  simp only [markSeen]
  split <;> exact ⟨rfl, rfl, rfl⟩

lemma markRequested_cacheFields (k now : Nat) (s : RelayState) :
    (markRequested k now s).2.tx_cache = s.tx_cache ∧
      (markRequested k now s).2.tx_by_wtxid = s.tx_by_wtxid ∧
      (markRequested k now s).2.tx_cache_order = s.tx_cache_order := by
  simp only [markRequested, cleanupRequested]
  split <;> exact ⟨rfl, rfl, rfl⟩

lemma insertTx_cacheInv (txid : Nat) (tx : Transaction) (s : RelayState)
    (h : CacheInv s) : CacheInv (insertTx txid tx s) := by
  obtain ⟨hnd, hmem, hknd, hres, hlen⟩ := h
  have pre1 : ∀ t, alMem t (alInsert txid tx s.tx_cache) = true ↔
      t ∈ (if alMem txid s.tx_cache = true then s.tx_cache_order
           else s.tx_cache_order ++ [txid]) := by
    intro t
    rw [alMem_alInsert]
    by_cases hc : alMem txid s.tx_cache = true
    · rw [if_pos hc]
      constructor
      · rintro (rfl | ht)
        · exact (hmem t).mp hc
        · exact (hmem t).mp ht
      · intro ht
        right
        exact (hmem t).mpr ht
    · rw [if_neg hc, List.mem_append, List.mem_singleton]
      constructor
      · rintro (rfl | ht)
        · right
          rfl
        · left
          exact (hmem t).mp ht
      · rintro (ht | rfl)
        · right
          exact (hmem t).mpr ht
        · left
          rfl
  have pre2 : (if alMem txid s.tx_cache = true then s.tx_cache_order
      else s.tx_cache_order ++ [txid]).Nodup := by
    by_cases hc : alMem txid s.tx_cache = true
    · rw [if_pos hc]
      exact hnd
    · rw [if_neg hc]
      rw [List.nodup_append]
      refine ⟨hnd, by simp, ?_⟩
      intro a ha hb
      simp only [List.mem_singleton] at hb
      subst hb
      exact hc ((hmem a).mpr ha)
  have pre3 : ((alInsert txid tx s.tx_cache).map Prod.fst).Nodup :=
    keysNodup_alInsert _ _ _ hknd
  have pre4 : ∀ p ∈ alInsert tx.wtxid txid s.tx_by_wtxid,
      alMem p.2 (alInsert txid tx s.tx_cache) = true := by
    intro p hp
    rcases mem_alInsert _ _ _ _ hp with rfl | hp'
    · rw [alMem_alInsert]
      left
      rfl
    · rw [alMem_alInsert]
      right
      exact hres p hp'
  have key := evictTx_inv _ _ _ pre1 pre2 pre3 pre4
  exact ⟨key.2.1, key.1, key.2.2.1, key.2.2.2.1, key.2.2.2.2⟩

/-- C9: every relay-state operation preserves the cache invariants: the
wtxid index resolves only to cached txids, the FIFO order mirrors the
cached key set without duplicates (so eviction removes every wtxid-index
entry pointing at the evicted txid), and the cache never exceeds 20 000
entries. -/
theorem c9_cache_invariants (s : RelayState) (h : CacheInv s) :
    (∀ k, CacheInv (markSeen k s).2) ∧
    (∀ k now, CacheInv (markRequested k now s).2) ∧
    (∀ k, CacheInv (completeRequest k s)) ∧
    (∀ txid tx, CacheInv (insertTx txid tx s)) ∧
    (∀ txid tx, (insertTx txid tx s).tx_cache.length ≤ RECENT_TX_CACHE_LIMIT) ∧
    s.tx_cache.length ≤ RECENT_TX_CACHE_LIMIT := by
  refine ⟨?_, ?_, ?_, fun txid tx => insertTx_cacheInv txid tx s h,
    fun txid tx => CacheInv_cache_len _ (insertTx_cacheInv txid tx s h),
    CacheInv_cache_len s h⟩
  · intro k
    obtain ⟨h1, h2, h3⟩ := markSeen_cacheFields k s
    exact CacheInv_of_fields s _ h1 h2 h3 h
  · intro k now
    obtain ⟨h1, h2, h3⟩ := markRequested_cacheFields k now s
    exact CacheInv_of_fields s _ h1 h2 h3 h
  · intro k
    exact CacheInv_of_fields s _ rfl rfl rfl h

/-- Witness for C9: the invariant holds after inserting a transaction
into the empty relay state, and the cache stays within its cap. -/
theorem c9_cache_invariants_witness :
    (insertTx 5 ⟨5, 6⟩ RelayState.empty).tx_cache.length ≤ RECENT_TX_CACHE_LIMIT :=
  (c9_cache_invariants RelayState.empty
    ⟨List.nodup_nil, fun t => by simp [alMem, RelayState.empty],
     List.nodup_nil, fun p hp => absurd hp (List.not_mem_nil p),
     Nat.zero_le _⟩).2.2.2.2.1 5 ⟨5, 6⟩
